import Mathlib

/-!
Shallow embedding of `hdf5-types/src/array.rs`: the owning `VarLenArray<T>`
and the non-owning `LeakyVarLenArray<T>`, over an explicit model of the
foreign allocator (`crate::malloc` / `crate::free`).

Pointers are modelled as `Option Nat`: `none` is the null pointer, `some q`
a pointer to the allocation with identifier `q`.  A `Heap α` holds the live
allocations (buffers of element values of type `α`) together with logs of
every malloc and free call, so that claims of the shape "deallocate is
called exactly once" become statements about the `frees` log.
-/

/-- State of the foreign allocator: `next` is the next fresh allocation id,
`bufs` the live allocations (id, contents), `allocs` the log of pointers
returned by `crate::malloc` and `frees` the log of pointers passed to
`crate::free`, each in call order. -/
structure Heap (α : Type) where
  next : Nat
  bufs : List (Nat × List α)
  allocs : List Nat
  frees : List Nat
  deriving DecidableEq

/-- Values stored in foreign memory, as needed by the nested-array claims:
32-bit integers and variable-length-array records (`len`, `ptr`) stored by
value inside a buffer — the two-word `#[repr(C)]` record shape. -/
inductive Val : Type
  | int (n : Int)
  | varRec (len : Nat) (ptr : Option Nat)
  deriving DecidableEq

/-- The Rust element types the claims quantify over: `i32` and
`LeakyVarLenArray<t>`. -/
inductive Ty : Type
  | i32
  | leaky (t : Ty)
  deriving DecidableEq

/-- `std::mem::needs_drop::<T>()`: whether `T` has drop glue.  `i32` has
none.  `LeakyVarLenArray<T>` derives `Copy`, and a `Copy` type cannot and
does not implement `Drop`; its fields (`usize`, `*mut c_void`,
`PhantomData`) have no drop glue either, so it has none. -/
def needs_drop : Ty → Bool
  | .i32 => false
  | .leaky _ => false

/-- `std::ptr::drop_in_place::<T>` on one element: runs the drop glue of
`T`.  A type without drop glue (see `needs_drop`) has the identity glue;
in particular `LeakyVarLenArray<U>` has no `Drop` impl (it is `Copy`), so
its explicit `drop` method is not invoked by `drop_in_place`. -/
def dropGlue : Ty → Heap Val → Val → Heap Val
  | .i32, h, _ => h
  | .leaky _, h, _ => h

/-- `VarLenArray<T>`: `#[repr(C)] { len: usize, ptr: *const u8 }`. -/
structure VarLenArray : Type where
  len : Nat
  ptr : Option Nat
  deriving DecidableEq

/-- `LeakyVarLenArray<T>`: `#[repr(C)] { len: usize, ptr: *mut c_void }`,
additionally `#[derive(Copy, Clone)]` (bitwise copy, no drop glue). -/
structure LeakyVarLenArray : Type where
  len : Nat
  ptr : Option Nat
  deriving DecidableEq

/-- `crate::malloc(len * size_of::<T>())` immediately followed by the
`ptr::copy_nonoverlapping` that fills the new buffer with `data`: returns
the updated heap and the fresh (non-null) pointer, and logs the call. -/
def Heap.malloc {α : Type} (h : Heap α) (data : List α) : Heap α × Nat :=
  (⟨h.next + 1, (h.next, data) :: h.bufs, h.allocs ++ [h.next], h.frees⟩, h.next)

/-- Look up the live buffer with identifier `q`. -/
def Heap.findBuf {α : Type} : List (Nat × List α) → Nat → Option (List α)
  | [], _ => none
  | (k, v) :: t, q => if k = q then some v else Heap.findBuf t q

/-- `crate::free(p)`: drops the allocation and logs the call. -/
def Heap.free {α : Type} (h : Heap α) (p : Nat) : Heap α :=
  ⟨h.next, h.bufs.filter (fun e => e.1 != p), h.allocs, h.frees ++ [p]⟩

/-- Read the contents behind a pointer (empty for null or dead pointers:
those reads are undefined behaviour in the source and never occur on the
states the theorems quantify over). -/
def Heap.readBuf {α : Type} (h : Heap α) (p : Option Nat) : List α :=
  match p with
  | none => []
  | some q => (Heap.findBuf h.bufs q).getD []

/-- Heap well-formedness: every live allocation id was produced before the
current `next` counter, so a fresh allocation never collides with a live
one. -/
def Heap.wf {α : Type} (h : Heap α) : Prop :=
  ∀ e ∈ h.bufs, e.1 < h.next

/-- `VarLenArray::from_parts(p, len)`: the source pointer `p` is `none`
when null and `some src` when it points at readable elements `src`.  When
the pointer is non-null and `len` is nonzero, malloc a buffer and copy
`len` elements from the source; otherwise produce the normalized empty
record with no allocation. -/
def VarLenArray.from_parts {α : Type} (h : Heap α) (p : Option (List α)) (len : Nat) :
    Heap α × VarLenArray :=
  if p.isSome ∧ len ≠ 0 then
    let r := Heap.malloc h ((p.getD []).take len)
    (r.1, ⟨len, some r.2⟩)
  else
    (h, ⟨0, none⟩)

/-- `VarLenArray::from_slice(arr)`: `from_parts(arr.as_ptr(), arr.len())`;
a slice data pointer is never null (it is dangling, not null, for an empty
slice). -/
def VarLenArray.from_slice {α : Type} (h : Heap α) (arr : List α) : Heap α × VarLenArray :=
  VarLenArray.from_parts h (some arr) arr.length

/-- `impl From<[T; N]> for VarLenArray<T>`:
`from_parts(arr.as_ptr(), arr.len())`; an array data pointer is never
null. -/
def VarLenArray.from_array {α : Type} (h : Heap α) (arr : List α) : Heap α × VarLenArray :=
  VarLenArray.from_parts h (some arr) arr.length

/-- `impl Default for VarLenArray<T>`: `from_parts(ptr::null(), 0)`. -/
def VarLenArray.default {α : Type} (h : Heap α) : Heap α × VarLenArray :=
  VarLenArray.from_parts h (none : Option (List α)) 0

/-- `VarLenArray::is_empty()`: `self.len == 0`. -/
def VarLenArray.is_empty (a : VarLenArray) : Bool :=
  a.len == 0

/-- `impl Drop for VarLenArray<T>`: if the pointer is null, return;
otherwise `crate::free` the buffer, then reset pointer to null and length
to 0. -/
def VarLenArray.drop {α : Type} (h : Heap α) (a : VarLenArray) : Heap α × VarLenArray :=
  match a.ptr with
  | none => (h, a)
  | some p => (Heap.free h p, ⟨0, none⟩)

/-- `impl Deref for VarLenArray<T>`: empty slice if `len == 0` or the
pointer is null, otherwise `slice::from_raw_parts(ptr, len)` — reading
`len` elements behind the pointer. -/
def VarLenArray.deref {α : Type} (h : Heap α) (a : VarLenArray) : List α :=
  if a.len = 0 ∨ a.ptr = none then []
  else (Heap.readBuf h a.ptr).take a.len

/-- The guard of `Deref::deref`, extracted: true exactly when the
`slice::from_raw_parts` branch is taken. -/
def VarLenArray.derefTakesRawBranch (a : VarLenArray) : Bool :=
  !(a.len == 0 || a.ptr.isNone)

/-- `impl Clone for VarLenArray<T>`: `Self::from_slice(self)`, a deep copy
of the current view. -/
def VarLenArray.clone {α : Type} (h : Heap α) (a : VarLenArray) : Heap α × VarLenArray :=
  VarLenArray.from_slice h (VarLenArray.deref h a)

/-- `impl PartialEq for VarLenArray<T>`:
`self.as_slice() == other.as_slice()` — structural, element-wise equality
of the two views. -/
def VarLenArray.eqRecs {α : Type} (h : Heap α) (a b : VarLenArray) : Prop :=
  VarLenArray.deref h a = VarLenArray.deref h b

/-- The normalized-empty invariant: `len == 0` iff the pointer is null. -/
def VarLenArray.inv (a : VarLenArray) : Prop :=
  a.len = 0 ↔ a.ptr = none

/-- `LeakyVarLenArray::as_slice()`: empty slice if `len == 0`, otherwise
`slice::from_raw_parts(ptr, len)`.  Note the guard checks only the
length, not the pointer. -/
def LeakyVarLenArray.as_slice {α : Type} (h : Heap α) (a : LeakyVarLenArray) : List α :=
  if a.len = 0 then []
  else (Heap.readBuf h a.ptr).take a.len

/-- The guard of `LeakyVarLenArray::as_slice`, extracted: true exactly
when the `slice::from_raw_parts` branch is taken. -/
def LeakyVarLenArray.asSliceTakesRawBranch (a : LeakyVarLenArray) : Bool :=
  !(a.len == 0)

/-- `LeakyVarLenArray::is_empty()`: `self.len == 0`. -/
def LeakyVarLenArray.is_empty (a : LeakyVarLenArray) : Bool :=
  a.len == 0

/-- The normalized-empty invariant for the non-owning record: `len == 0`
iff the pointer is null. -/
def LeakyVarLenArray.inv (a : LeakyVarLenArray) : Prop :=
  a.len = 0 ↔ a.ptr = none

/-- `LeakyVarLenArray::drop(&mut self)` for element type `t`: if the
pointer is null, return; if `needs_drop::<T>()`, run `drop_in_place` on
each element at offsets `0..len` in order; then `crate::free` the buffer
and reset the record to null/0. -/
def LeakyVarLenArray.drop (t : Ty) (h : Heap Val) (a : LeakyVarLenArray) :
    Heap Val × LeakyVarLenArray :=
  match a.ptr with
  | none => (h, a)
  | some p =>
    let h1 :=
      if needs_drop t then
        (List.range a.len).foldl
          (fun hh off => dropGlue t hh ((Heap.readBuf hh (some p)).getD off (Val.int 0)))
          h
      else h
    (Heap.free h1 p, ⟨0, none⟩)

/-- Modelled from the spec: the source file gives `LeakyVarLenArray` no
constructor (only accessors and `drop`); this models §4.2's
`construct_from(source) -> NonOwningVarArray<T>` from the spec's words —
"identical allocation/copy behavior to OwningVarArray's constructor": an
empty source yields the empty record with no allocation, otherwise
allocate via the foreign allocator and byte-copy the elements. -/
def LeakyVarLenArray.construct_from {α : Type} (h : Heap α) (source : List α) :
    Heap α × LeakyVarLenArray :=
  if source.isEmpty then
    (h, ⟨0, none⟩)
  else
    let r := Heap.malloc h source
    (r.1, ⟨source.length, some r.2⟩)

/- Shared helper lemmas. -/

/-- No element type in scope has drop glue: `i32` is primitive and
`LeakyVarLenArray` is `Copy`. -/
theorem needs_drop_eq_false (t : Ty) : needs_drop t = false := by
  cases t <;> rfl

/-- A successful buffer lookup only finds identifiers bounded by any bound
on the association list keys. -/
theorem findBuf_lt {α : Type} {n : Nat} :
    ∀ (l : List (Nat × List α)) (p : Nat) (b : List α),
      (∀ e ∈ l, e.1 < n) → Heap.findBuf l p = some b → p < n
  | [], p, b, _, hl => by simp [Heap.findBuf] at hl
  | (k, v) :: t, p, b, hwf, hl => by
    by_cases hk : k = p
    · exact hk ▸ hwf (k, v) (List.mem_cons_self _ _)
    · have ht : Heap.findBuf t p = some b := by
        simpa [Heap.findBuf, hk] using hl
      exact findBuf_lt t p b (fun e he => hwf e (List.mem_cons_of_mem _ he)) ht

/-- Looking up a key distinct from the head skips the head. -/
theorem findBuf_cons_ne {α : Type} {k q : Nat} (hne : k ≠ q) (v : List α)
    (t : List (Nat × List α)) :
    Heap.findBuf ((k, v) :: t) q = Heap.findBuf t q := by
  simp [Heap.findBuf, hne]

/-- The record built by `from_parts` always satisfies the normalized-empty
invariant. -/
theorem from_parts_inv {α : Type} (h : Heap α) (p : Option (List α)) (len : Nat) :
    VarLenArray.inv (VarLenArray.from_parts h p len).2 := by
  unfold VarLenArray.from_parts
  split
  · next hc => simp [VarLenArray.inv, hc.2]
  · simp [VarLenArray.inv]

/-- C3: for every finite sequence `s` of a plain-data element type,
`VarLenArray::from_slice(s)` followed by `Deref` yields a sequence
element-wise equal to `s`, and the record length equals `s.length`. -/
theorem c3_from_slice_round_trip (α : Type) (h : Heap α) (s : List α) :
    VarLenArray.deref (VarLenArray.from_slice h s).1 (VarLenArray.from_slice h s).2 = s ∧
    (VarLenArray.from_slice h s).2.len = s.length := by
  cases s with
  | nil => simp [VarLenArray.from_slice, VarLenArray.from_parts, VarLenArray.deref]
  | cons x xs =>
    simp [VarLenArray.from_slice, VarLenArray.from_parts, VarLenArray.deref,
      Heap.malloc, Heap.readBuf, Heap.findBuf]

/-- C7: constructing from an empty sequence and constructing by `Default`
both yield the normalized empty record — length 0, null pointer, heap
untouched (no allocation) — and `is_empty` is true for both. -/
theorem c7_empty_normalization (α : Type) (h : Heap α) :
    VarLenArray.from_slice h ([] : List α) = (h, ⟨0, none⟩) ∧
    VarLenArray.default h = (h, ⟨0, none⟩) ∧
    VarLenArray.is_empty (VarLenArray.from_slice h ([] : List α)).2 = true ∧
    VarLenArray.is_empty (VarLenArray.default h).2 = true := by
  simp [VarLenArray.from_slice, VarLenArray.from_parts, VarLenArray.default,
    VarLenArray.is_empty]

/-- C10: `from_parts` normalizes every degenerate input — a null source
pointer or a zero length (including null with nonzero length) yields the
empty record with the heap untouched; allocation and copying happen
exactly when the pointer is non-null and the length nonzero. -/
theorem c10_from_parts_degenerate (α : Type) (h : Heap α) (p : Option (List α))
    (len : Nat) :
    (p = none ∨ len = 0 → VarLenArray.from_parts h p len = (h, ⟨0, none⟩)) ∧
    (∀ src, p = some src → len ≠ 0 →
      VarLenArray.from_parts h p len =
        (⟨h.next + 1, (h.next, src.take len) :: h.bufs, h.allocs ++ [h.next], h.frees⟩,
         ⟨len, some h.next⟩)) := by
  constructor
  · intro hd
    rcases hd with hd | hd <;> simp [VarLenArray.from_parts, hd]
  · intro src hsrc hlen
    simp [VarLenArray.from_parts, hsrc, hlen, Heap.malloc]

/-- Witness for C10 at concrete inputs: a null pointer with nonzero
length, a non-null pointer with zero length, and a genuine allocation. -/
theorem c10_witness :
    VarLenArray.from_parts (⟨1, [], [], []⟩ : Heap Nat) none 5 =
      ((⟨1, [], [], []⟩ : Heap Nat), ⟨0, none⟩) ∧
    VarLenArray.from_parts (⟨1, [], [], []⟩ : Heap Nat) (some [7, 8]) 0 =
      ((⟨1, [], [], []⟩ : Heap Nat), ⟨0, none⟩) ∧
    VarLenArray.from_parts (⟨1, [], [], []⟩ : Heap Nat) (some [7, 8]) 2 =
      (⟨2, [(1, [7, 8])], [1], []⟩, ⟨2, some 1⟩) := by
  refine ⟨(c10_from_parts_degenerate Nat ⟨1, [], [], []⟩ none 5).1 (Or.inl rfl),
    (c10_from_parts_degenerate Nat ⟨1, [], [], []⟩ (some [7, 8]) 0).1 (Or.inr rfl), ?_⟩
  have := (c10_from_parts_degenerate Nat ⟨1, [], [], []⟩ (some [7, 8]) 2).2
    [7, 8] rfl (by decide)
  simpa using this

/-- C5: every record — owning or non-owning — maintains the invariant
`len == 0` iff the pointer is null: it is established by every
construction path (`from_parts`, `from_slice`, the `From` impls,
`Default`, cloning, and the non-owning constructor), `Drop` preserves and
re-establishes it on the owning record, and the non-owning explicit drop
preserves and re-establishes it as well. -/
theorem c5_normalization_invariant (α : Type) (h : Heap α) (p : Option (List α))
    (len : Nat) (s : List α) (a : VarLenArray) (t : Ty) (hv : Heap Val)
    (b : LeakyVarLenArray) (ha : VarLenArray.inv a)
    (hb : LeakyVarLenArray.inv b) :
    VarLenArray.inv (VarLenArray.from_parts h p len).2 ∧
    VarLenArray.inv (VarLenArray.from_slice h s).2 ∧
    VarLenArray.inv (VarLenArray.from_array h s).2 ∧
    VarLenArray.inv (VarLenArray.default h).2 ∧
    VarLenArray.inv (VarLenArray.drop h a).2 ∧
    VarLenArray.inv (VarLenArray.clone h a).2 ∧
    LeakyVarLenArray.inv (LeakyVarLenArray.construct_from h s).2 ∧
    LeakyVarLenArray.inv (LeakyVarLenArray.drop t hv b).2 := by
  refine ⟨from_parts_inv h p len, from_parts_inv h (some s) s.length,
    from_parts_inv h (some s) s.length, from_parts_inv h none 0, ?_, ?_, ?_, ?_⟩
  · cases hp : a.ptr with
    | none =>
      have heq : VarLenArray.drop h a = (h, a) := by simp [VarLenArray.drop, hp]
      rw [heq]
      exact ha
    | some q => simp [VarLenArray.drop, hp, VarLenArray.inv]
  · exact from_parts_inv h (some (VarLenArray.deref h a)) (VarLenArray.deref h a).length
  · cases s with
    | nil => simp [LeakyVarLenArray.construct_from, LeakyVarLenArray.inv]
    | cons x xs =>
      simp [LeakyVarLenArray.construct_from, LeakyVarLenArray.inv, Heap.malloc]
  · cases hp : b.ptr with
    | none =>
      have heq : LeakyVarLenArray.drop t hv b = (hv, b) := by
        simp [LeakyVarLenArray.drop, hp]
      rw [heq]
      exact hb
    | some q => simp [LeakyVarLenArray.drop, hp, LeakyVarLenArray.inv]

/-- Witness for C5 at concrete heaps and populated records of both
variants. -/
theorem c5_witness :
    VarLenArray.inv (VarLenArray.from_parts (⟨1, [], [], []⟩ : Heap Nat) (some [3]) 1).2 ∧
    VarLenArray.inv (VarLenArray.from_slice (⟨1, [], [], []⟩ : Heap Nat) [4, 5]).2 ∧
    VarLenArray.inv (VarLenArray.from_array (⟨1, [], [], []⟩ : Heap Nat) [4, 5]).2 ∧
    VarLenArray.inv (VarLenArray.default (⟨1, [], [], []⟩ : Heap Nat)).2 ∧
    VarLenArray.inv (VarLenArray.drop (⟨2, [(1, [9])], [1], []⟩ : Heap Nat) ⟨1, some 1⟩).2 ∧
    VarLenArray.inv (VarLenArray.clone (⟨2, [(1, [9])], [1], []⟩ : Heap Nat) ⟨1, some 1⟩).2 ∧
    LeakyVarLenArray.inv
      (LeakyVarLenArray.construct_from (⟨1, [], [], []⟩ : Heap Nat) [4, 5]).2 ∧
    LeakyVarLenArray.inv
      (LeakyVarLenArray.drop Ty.i32 (⟨2, [(1, [Val.int 9])], [1], []⟩ : Heap Val)
        ⟨1, some 1⟩).2 := by
  have h1 := c5_normalization_invariant Nat ⟨1, [], [], []⟩ (some [3]) 1 [4, 5]
    ⟨1, some 1⟩ Ty.i32 ⟨2, [(1, [Val.int 9])], [1], []⟩ ⟨1, some 1⟩
    (by simp [VarLenArray.inv]) (by simp [LeakyVarLenArray.inv])
  have h2 := c5_normalization_invariant Nat ⟨2, [(1, [9])], [1], []⟩ (some [3]) 1 [4, 5]
    ⟨1, some 1⟩ Ty.i32 ⟨2, [(1, [Val.int 9])], [1], []⟩ ⟨1, some 1⟩
    (by simp [VarLenArray.inv]) (by simp [LeakyVarLenArray.inv])
  exact ⟨h1.1, h1.2.1, h1.2.2.1, h1.2.2.2.1, h2.2.2.2.2.1, h2.2.2.2.2.2.1,
    h1.2.2.2.2.2.2.1, h1.2.2.2.2.2.2.2⟩

/-- C2: `Drop` on an owning record frees exactly once when the pointer is
non-null and resets the record, so a second run of the destructor performs
no free; on a null-pointer record it performs no free at all.  Composed
with construction: building from a nonempty sequence and then dropping
frees the freshly allocated pointer exactly once, building from the empty
sequence and dropping frees nothing. -/
theorem c2_drop_exactly_once (α : Type) (h : Heap α) (a : VarLenArray) (p : Nat)
    (s : List α) (hp : a.ptr = some p) (hs : s ≠ []) :
    (VarLenArray.drop h a).1.frees = h.frees ++ [p] ∧
    (VarLenArray.drop h a).2 = ⟨0, none⟩ ∧
    VarLenArray.drop (VarLenArray.drop h a).1 (VarLenArray.drop h a).2 =
      ((VarLenArray.drop h a).1, (VarLenArray.drop h a).2) ∧
    (∀ b : VarLenArray, b.ptr = none → VarLenArray.drop h b = (h, b)) ∧
    (VarLenArray.drop (VarLenArray.from_slice h s).1
      (VarLenArray.from_slice h s).2).1.frees = h.frees ++ [h.next] ∧
    (VarLenArray.drop (VarLenArray.from_slice h ([] : List α)).1
      (VarLenArray.from_slice h ([] : List α)).2).1.frees = h.frees := by
  refine ⟨by simp [VarLenArray.drop, hp, Heap.free],
    by simp [VarLenArray.drop, hp],
    by simp [VarLenArray.drop, hp],
    fun b hb => by simp [VarLenArray.drop, hb], ?_, ?_⟩
  · cases s with
    | nil => exact absurd rfl hs
    | cons x xs =>
      simp [VarLenArray.from_slice, VarLenArray.from_parts, Heap.malloc,
        VarLenArray.drop, Heap.free]
  · simp [VarLenArray.from_slice, VarLenArray.from_parts, VarLenArray.drop]

/-- Witness for C2 at a concrete heap, record and sequences. -/
theorem c2_witness :
    (VarLenArray.drop (⟨2, [(1, [9, 9])], [1], []⟩ : Heap Nat) ⟨2, some 1⟩).1.frees
      = [] ++ [1] ∧
    (VarLenArray.drop (⟨2, [(1, [9, 9])], [1], []⟩ : Heap Nat) ⟨2, some 1⟩).2
      = ⟨0, none⟩ ∧
    VarLenArray.drop
      (VarLenArray.drop (⟨2, [(1, [9, 9])], [1], []⟩ : Heap Nat) ⟨2, some 1⟩).1
      (VarLenArray.drop (⟨2, [(1, [9, 9])], [1], []⟩ : Heap Nat) ⟨2, some 1⟩).2 =
      ((VarLenArray.drop (⟨2, [(1, [9, 9])], [1], []⟩ : Heap Nat) ⟨2, some 1⟩).1,
       (VarLenArray.drop (⟨2, [(1, [9, 9])], [1], []⟩ : Heap Nat) ⟨2, some 1⟩).2) ∧
    VarLenArray.drop (⟨2, [(1, [9, 9])], [1], []⟩ : Heap Nat) ⟨0, none⟩ =
      ((⟨2, [(1, [9, 9])], [1], []⟩ : Heap Nat), ⟨0, none⟩) ∧
    (VarLenArray.drop
      (VarLenArray.from_slice (⟨2, [(1, [9, 9])], [1], []⟩ : Heap Nat) [5]).1
      (VarLenArray.from_slice (⟨2, [(1, [9, 9])], [1], []⟩ : Heap Nat) [5]).2).1.frees
      = [] ++ [2] ∧
    (VarLenArray.drop
      (VarLenArray.from_slice (⟨2, [(1, [9, 9])], [1], []⟩ : Heap Nat) ([] : List Nat)).1
      (VarLenArray.from_slice (⟨2, [(1, [9, 9])], [1], []⟩ : Heap Nat) ([] : List Nat)).2).1.frees
      = [] := by
  have hc := c2_drop_exactly_once Nat ⟨2, [(1, [9, 9])], [1], []⟩ ⟨2, some 1⟩ 1 [5]
    rfl (by decide)
  exact ⟨hc.1, hc.2.1, hc.2.2.1, hc.2.2.2.1 ⟨0, none⟩ rfl, hc.2.2.2.2.1,
    hc.2.2.2.2.2⟩

/-- C9: cloning a populated owning record yields an independently
allocated deep copy — the views are element-wise equal (so the records
compare equal under structural equality), while the buffer pointers are
distinct. -/
theorem c9_clone_independence (α : Type) (h : Heap α) (a : VarLenArray) (p : Nat)
    (buf : List α) (hwf : Heap.wf h) (hp : a.ptr = some p)
    (hbuf : Heap.findBuf h.bufs p = some buf) (hlen : buf.length = a.len)
    (hpos : 0 < a.len) :
    VarLenArray.deref (VarLenArray.clone h a).1 (VarLenArray.clone h a).2 =
      VarLenArray.deref (VarLenArray.clone h a).1 a ∧
    (VarLenArray.clone h a).2.ptr ≠ a.ptr ∧
    VarLenArray.eqRecs (VarLenArray.clone h a).1 (VarLenArray.clone h a).2 a := by
  have hlen0 : a.len ≠ 0 := Nat.pos_iff_ne_zero.mp hpos
  have hbl0 : buf.length ≠ 0 := by rw [hlen]; exact hlen0
  have hda : VarLenArray.deref h a = buf := by
    simp [VarLenArray.deref, hp, hlen0, Heap.readBuf, hbuf, ← hlen]
  have hplt : p < h.next := findBuf_lt h.bufs p buf hwf hbuf
  have hne : h.next ≠ p := Nat.ne_of_gt hplt
  have hclone : VarLenArray.clone h a =
      (⟨h.next + 1, (h.next, buf) :: h.bufs, h.allocs ++ [h.next], h.frees⟩,
       ⟨buf.length, some h.next⟩) := by
    rw [VarLenArray.clone, hda]
    simp [VarLenArray.from_slice, VarLenArray.from_parts, hbl0, Heap.malloc]
  have hd1 : VarLenArray.deref
      (⟨h.next + 1, (h.next, buf) :: h.bufs, h.allocs ++ [h.next], h.frees⟩ : Heap α)
      ⟨buf.length, some h.next⟩ = buf := by
    simp [VarLenArray.deref, hbl0, Heap.readBuf, Heap.findBuf]
  have hd2 : VarLenArray.deref
      (⟨h.next + 1, (h.next, buf) :: h.bufs, h.allocs ++ [h.next], h.frees⟩ : Heap α)
      a = buf := by
    simp [VarLenArray.deref, hp, hlen0, Heap.readBuf, Heap.findBuf, hne, hbuf, ← hlen]
  rw [hclone]
  exact ⟨hd1.trans hd2.symm, by simp [hp, hne], hd1.trans hd2.symm⟩

/-- Witness for C9 at a concrete heap and populated record. -/
theorem c9_witness :
    VarLenArray.deref
      (VarLenArray.clone (⟨2, [(1, [5, 7])], [1], []⟩ : Heap Nat) ⟨2, some 1⟩).1
      (VarLenArray.clone (⟨2, [(1, [5, 7])], [1], []⟩ : Heap Nat) ⟨2, some 1⟩).2 =
      VarLenArray.deref
        (VarLenArray.clone (⟨2, [(1, [5, 7])], [1], []⟩ : Heap Nat) ⟨2, some 1⟩).1
        ⟨2, some 1⟩ ∧
    (VarLenArray.clone (⟨2, [(1, [5, 7])], [1], []⟩ : Heap Nat) ⟨2, some 1⟩).2.ptr ≠
      (⟨2, some 1⟩ : VarLenArray).ptr ∧
    VarLenArray.eqRecs
      (VarLenArray.clone (⟨2, [(1, [5, 7])], [1], []⟩ : Heap Nat) ⟨2, some 1⟩).1
      (VarLenArray.clone (⟨2, [(1, [5, 7])], [1], []⟩ : Heap Nat) ⟨2, some 1⟩).2
      ⟨2, some 1⟩ :=
  c9_clone_independence Nat ⟨2, [(1, [5, 7])], [1], []⟩ ⟨2, some 1⟩ 1 [5, 7]
    (by unfold Heap.wf; decide) rfl (by decide) rfl (by decide)

/-- C8 counterexample: a non-owning record with nonzero length and null
pointer — `LeakyVarLenArray::as_slice` takes the `slice::from_raw_parts`
branch even though the pointer is null, because its guard checks only the
length; so the raw-pointer branch is not unreachable on null pointers for
the non-owning view, contrary to the claim. -/
theorem c8_counterexample :
    LeakyVarLenArray.asSliceTakesRawBranch ⟨3, none⟩ = true ∧
    (⟨3, none⟩ : LeakyVarLenArray).ptr = none := by
  decide

/-- C8 amended: the owning view is total and guarded — when the length is
0 or the pointer is null it returns the empty sequence and the raw branch
is not taken, and on a valid populated record it returns exactly `len`
elements; the non-owning view guards only on the length — zero length
gives the empty sequence, and only on records satisfying the
normalization invariant is the raw branch restricted to non-null
pointers. -/
theorem c8_view_guarded (α : Type) (h : Heap α) (a : VarLenArray)
    (b : LeakyVarLenArray) (hg : a.len = 0 ∨ a.ptr = none)
    (hbinv : b.len = 0 ↔ b.ptr = none) :
    VarLenArray.deref h a = [] ∧
    VarLenArray.derefTakesRawBranch a = false ∧
    (b.len = 0 → LeakyVarLenArray.as_slice h b = []) ∧
    (LeakyVarLenArray.asSliceTakesRawBranch b = true → b.ptr ≠ none) ∧
    (∀ (c : VarLenArray) (q : Nat) (bufc : List α), c.ptr = some q →
      Heap.findBuf h.bufs q = some bufc → bufc.length = c.len →
      (VarLenArray.deref h c).length = c.len) := by
  refine ⟨by simp [VarLenArray.deref, hg], ?_,
    fun hb => by simp [LeakyVarLenArray.as_slice, hb], ?_, ?_⟩
  · rcases hg with hg | hg <;> simp [VarLenArray.derefTakesRawBranch, hg]
  · intro hraw hnull
    have hb0 : b.len = 0 := hbinv.mpr hnull
    simp [LeakyVarLenArray.asSliceTakesRawBranch, hb0] at hraw
  · intro c q bufc hcp hcb hcl
    by_cases hc0 : c.len = 0
    · simp [VarLenArray.deref, hc0]
    · simp [VarLenArray.deref, hcp, hc0, Heap.readBuf, hcb, List.length_take, hcl]

/-- Witness for C8 (amended) at a concrete heap, an empty owning record, a
populated non-owning record (for the non-null raw branch) and an empty
non-owning record (for the empty view). -/
theorem c8_witness :
    VarLenArray.deref (⟨2, [(1, [5, 7])], [1], []⟩ : Heap Nat) ⟨0, none⟩ = [] ∧
    VarLenArray.derefTakesRawBranch ⟨0, none⟩ = false ∧
    LeakyVarLenArray.as_slice (⟨2, [(1, [5, 7])], [1], []⟩ : Heap Nat)
      ⟨0, none⟩ = [] ∧
    (⟨2, some 1⟩ : LeakyVarLenArray).ptr ≠ none ∧
    (VarLenArray.deref (⟨2, [(1, [5, 7])], [1], []⟩ : Heap Nat)
      ⟨2, some 1⟩).length = (⟨2, some 1⟩ : VarLenArray).len := by
  have h1 := c8_view_guarded Nat ⟨2, [(1, [5, 7])], [1], []⟩ ⟨0, none⟩ ⟨2, some 1⟩
    (Or.inl rfl) (by decide)
  have h2 := c8_view_guarded Nat ⟨2, [(1, [5, 7])], [1], []⟩ ⟨0, none⟩ ⟨0, none⟩
    (Or.inl rfl) (by decide)
  exact ⟨h1.1, h1.2.1, h2.2.2.1 rfl, h1.2.2.2.1 rfl,
    h1.2.2.2.2 ⟨2, some 1⟩ 1 [5, 7] rfl (by decide) rfl⟩

/-- C4: the non-owning explicit drop is idempotent — on a null-pointer
record it does nothing (no element destruction, no deallocate call);
dropping a populated record frees its buffer exactly once and resets the
record to null/0, so an immediately repeated drop changes nothing. -/
theorem c4_leaky_drop_idempotent (t : Ty) (h : Heap Val) (a : LeakyVarLenArray)
    (p : Nat) (hp : a.ptr = some p) :
    (∀ b : LeakyVarLenArray, b.ptr = none → LeakyVarLenArray.drop t h b = (h, b)) ∧
    (LeakyVarLenArray.drop t h a).1.frees = h.frees ++ [p] ∧
    (LeakyVarLenArray.drop t h a).2 = ⟨0, none⟩ ∧
    LeakyVarLenArray.drop t (LeakyVarLenArray.drop t h a).1
      (LeakyVarLenArray.drop t h a).2 =
      ((LeakyVarLenArray.drop t h a).1, (LeakyVarLenArray.drop t h a).2) := by
  have hnd := needs_drop_eq_false t
  refine ⟨fun b hb => by simp [LeakyVarLenArray.drop, hb], ?_, ?_, ?_⟩ <;>
    simp [LeakyVarLenArray.drop, hp, hnd, Heap.free]

/-- Witness for C4: a record over a 3-element `i32` buffer built from
`[1, 2, 3]` — one deallocate call for the first drop, none for a repeat,
and drop on a null record is a no-op. -/
theorem c4_witness :
    LeakyVarLenArray.drop Ty.i32
      (⟨2, [(1, [Val.int 1, Val.int 2, Val.int 3])], [1], []⟩ : Heap Val)
      ⟨0, none⟩ =
      ((⟨2, [(1, [Val.int 1, Val.int 2, Val.int 3])], [1], []⟩ : Heap Val),
       ⟨0, none⟩) ∧
    (LeakyVarLenArray.drop Ty.i32
      (⟨2, [(1, [Val.int 1, Val.int 2, Val.int 3])], [1], []⟩ : Heap Val)
      ⟨3, some 1⟩).1.frees = [] ++ [1] ∧
    (LeakyVarLenArray.drop Ty.i32
      (⟨2, [(1, [Val.int 1, Val.int 2, Val.int 3])], [1], []⟩ : Heap Val)
      ⟨3, some 1⟩).2 = ⟨0, none⟩ ∧
    LeakyVarLenArray.drop Ty.i32
      (LeakyVarLenArray.drop Ty.i32
        (⟨2, [(1, [Val.int 1, Val.int 2, Val.int 3])], [1], []⟩ : Heap Val)
        ⟨3, some 1⟩).1
      (LeakyVarLenArray.drop Ty.i32
        (⟨2, [(1, [Val.int 1, Val.int 2, Val.int 3])], [1], []⟩ : Heap Val)
        ⟨3, some 1⟩).2 =
      ((LeakyVarLenArray.drop Ty.i32
        (⟨2, [(1, [Val.int 1, Val.int 2, Val.int 3])], [1], []⟩ : Heap Val)
        ⟨3, some 1⟩).1,
       (LeakyVarLenArray.drop Ty.i32
        (⟨2, [(1, [Val.int 1, Val.int 2, Val.int 3])], [1], []⟩ : Heap Val)
        ⟨3, some 1⟩).2) := by
  have hc := c4_leaky_drop_idempotent Ty.i32
    ⟨2, [(1, [Val.int 1, Val.int 2, Val.int 3])], [1], []⟩ ⟨3, some 1⟩ 1 rfl
  exact ⟨hc.1 ⟨0, none⟩ rfl, hc.2.1, hc.2.2.1, hc.2.2.2⟩

/-- Two inner single-element `i32` buffers (ids 1 and 2) and one outer
buffer (id 3) holding the two inner records by value: a concrete
`LeakyVarLenArray<LeakyVarLenArray<i32>>` state with `k = 2` inner arrays,
each of nonzero length. -/
def c1Heap : Heap Val :=
  ⟨4, [(3, [Val.varRec 1 (some 1), Val.varRec 1 (some 2)]),
       (1, [Val.int 10]), (2, [Val.int 20])], [1, 2, 3], []⟩

/-- The outer record of `c1Heap`: two inner arrays behind pointer 3. -/
def c1Outer : LeakyVarLenArray := ⟨2, some 3⟩

/-- C1 counterexample: dropping the outer record of `c1Heap` (`k = 2`
inner arrays of nonzero length) performs exactly one deallocate call — on
the outer buffer only — not `k + 1 = 3`: `LeakyVarLenArray<i32>` is
`Copy`, hence has no drop glue, so no per-element destruction recurses
into the inner buffers. -/
theorem c1_counterexample :
    (LeakyVarLenArray.drop (Ty.leaky Ty.i32) c1Heap c1Outer).1.frees = [3] ∧
    ¬((LeakyVarLenArray.drop (Ty.leaky Ty.i32) c1Heap c1Outer).1.frees.length
        = 2 + 1) := by
  decide

/-- C1 amended: the explicit drop of a populated outer
`LeakyVarLenArray<LeakyVarLenArray<i32>>` record (and of any record whose
element type is in scope) makes exactly one deallocate call — its own
buffer — since no element type in scope has drop glue; the `k` inner
buffers are left for the caller to free. -/
theorem c1_leaky_drop_frees_outer_only (t : Ty) (h : Heap Val)
    (a : LeakyVarLenArray) (p : Nat) (hp : a.ptr = some p) :
    (LeakyVarLenArray.drop t h a).1.frees = h.frees ++ [p] ∧
    (LeakyVarLenArray.drop t h a).2 = ⟨0, none⟩ := by
  have hnd := needs_drop_eq_false t
  constructor <;> simp [LeakyVarLenArray.drop, hp, hnd, Heap.free]

/-- Witness for C1 (amended) at the concrete nested state `c1Heap`. -/
theorem c1_witness :
    (LeakyVarLenArray.drop (Ty.leaky Ty.i32) c1Heap c1Outer).1.frees =
      c1Heap.frees ++ [3] ∧
    (LeakyVarLenArray.drop (Ty.leaky Ty.i32) c1Heap c1Outer).2 = ⟨0, none⟩ :=
  c1_leaky_drop_frees_outer_only (Ty.leaky Ty.i32) c1Heap c1Outer 3 rfl

/-- C6: the spec-modelled non-owning constructor has allocation and copy
behavior identical to the owning `from_slice` — the same resulting heap
(in particular no allocation for an empty source) and a record with the
same length and pointer — and the returned record has no automatic
destructor: `LeakyVarLenArray` has no drop glue, so `drop_in_place` on it
leaves the heap unchanged. -/
theorem c6_leaky_construct_parity (α : Type) (h : Heap α) (source : List α)
    (t : Ty) (hv : Heap Val) (v : Val) :
    (LeakyVarLenArray.construct_from h source).1 =
      (VarLenArray.from_slice h source).1 ∧
    (LeakyVarLenArray.construct_from h source).2.len =
      (VarLenArray.from_slice h source).2.len ∧
    (LeakyVarLenArray.construct_from h source).2.ptr =
      (VarLenArray.from_slice h source).2.ptr ∧
    needs_drop (Ty.leaky t) = false ∧
    dropGlue (Ty.leaky t) hv v = hv := by
  cases source with
  | nil =>
    refine ⟨?_, ?_, ?_, rfl, rfl⟩ <;>
      simp [LeakyVarLenArray.construct_from, VarLenArray.from_slice,
        VarLenArray.from_parts]
  | cons x xs =>
    refine ⟨?_, ?_, ?_, rfl, rfl⟩ <;>
      simp [LeakyVarLenArray.construct_from, VarLenArray.from_slice,
        VarLenArray.from_parts, Heap.malloc]
